import Mathlib

/-!
# Verification of the dbexec query execution engine

Shallow embedding of `cmd/dbexec/main.go`: the query catalog, the parameter
binder, the preview translator and the transaction runner
(`runQueriesInTransaction`), together with proofs of the specified
properties.

The backing store is abstracted as a pair of primitives (`Store`): a
parameterized exec returning an engine-reported affected-row count, and a
parameterized query returning materialized result rows.  Both act on a
transaction-local working state; the persisted state only changes at commit.
Transaction begin / commit / rollback are taken as reliable primitives of
the store, as the design document assumes.
-/

namespace DbExec

/-- Go `map[string]string` parameter maps and the `map[string]QueryDefinition`
catalog are modelled as association lists with first-match lookup; inserting
a binding at the head shadows (= overwrites) any older binding. -/
def lookupAssoc {α : Type} : List (String × α) → String → Option α
  | [], _ => none
  | (k, v) :: rest, key => if k = key then some v else lookupAssoc rest key

/-- `QueryDefinition` from main.go (YAML-loaded, immutable after load). -/
structure QueryDefinition where
  id : String
  description : String
  sql : String
  requiresApproval : Bool
  maxRowsAffected : Int
  allowedParams : List String
  deriving Repr, DecidableEq

abbrev Catalog := List (String × QueryDefinition)

abbrev Params := List (String × String)

/-! ## String utilities (Go `strings` package, on character lists) -/

/-- `strings.TrimSpace`, left half: drop leading whitespace. -/
def trimLeftChars (cs : List Char) : List Char :=
  cs.dropWhile Char.isWhitespace

/-- `strings.TrimSpace`, right half: drop trailing whitespace. -/
def trimRightChars (cs : List Char) : List Char :=
  (trimLeftChars cs.reverse).reverse

/-- `strings.TrimSpace`: drop leading and trailing whitespace. -/
def trimChars (cs : List Char) : List Char :=
  trimRightChars (trimLeftChars cs)

/-- `strings.TrimSpace` on `String`. -/
def trimS (s : String) : String :=
  ⟨trimChars s.data⟩

/-- Helper for `fieldsChars`: `cur` is the (reversed) word being read. -/
def fieldsAux : List Char → List Char → List (List Char)
  | cur, [] => if cur.isEmpty then [] else [cur.reverse]
  | cur, c :: rest =>
    if c.isWhitespace then
      if cur.isEmpty then fieldsAux [] rest
      else cur.reverse :: fieldsAux [] rest
    else fieldsAux (c :: cur) rest

/-- `strings.Fields`: split around runs of whitespace. -/
def fieldsChars (cs : List Char) : List (List Char) :=
  fieldsAux [] cs

/-- `strings.Join(ws, " ")`. -/
def joinSpace : List (List Char) → List Char
  | [] => []
  | [w] => w
  | w :: ws => w ++ ' ' :: joinSpace ws

/-- `strings.Join(strings.Fields(s), " ")`: whitespace normalization used by
the preview translator. -/
def normalizeChars (cs : List Char) : List Char :=
  joinSpace (fieldsChars cs)

/-- `strings.ToUpper` (character-wise). -/
def upperChars (cs : List Char) : List Char :=
  cs.map Char.toUpper

/-- `strings.Index pat hay`: index of the first occurrence of `pat` in the
haystack, `none` when absent (Go returns `-1`). -/
def indexOfSub (pat : List Char) : List Char → Option Nat
  | [] => if pat.isPrefixOf ([] : List Char) then some 0 else none
  | c :: rest =>
    if pat.isPrefixOf (c :: rest) then some 0
    else (indexOfSub pat rest).map (· + 1)

/-- Go slice `cs[a:b]` (caller must have established `a ≤ b ≤ len`). -/
def sliceList (a b : Nat) (cs : List Char) : List Char :=
  (cs.drop a).take (b - a)

/-- The read-only check of main.go:
`strings.HasPrefix(strings.ToUpper(strings.TrimSpace(sql)), "SELECT")`. -/
def isSelectSQL (sql : String) : Bool :=
  "SELECT".data.isPrefixOf (upperChars (trimChars sql.data))

/-! ## Preview translation (main.go lines 96–127) -/

/-- Outcome of the preview translation of a mutating statement.  `sliceFault`
models the Go runtime slice-bounds fault that main.go hits when the first
`" SET "` begins before the end of `"UPDATE "` (e.g. `"UPDATE SET x=1"`:
`normalizedSQL[updateIndex+7:setIndex]` with `updateIndex+7 > setIndex`);
the deferred rollback still fires while the process aborts, so at the
transaction level it behaves as one more aborting error. -/
inductive PreviewResult where
  | translated (sql : String)
  | parseError
  | sliceFault
  deriving Repr, DecidableEq

/-- The preview translator of main.go: normalize whitespace, uppercase a
copy, locate `"UPDATE "`, `" SET "`, `" WHERE "` by first-occurrence index
in the uppercased copy, and rebuild `SELECT * FROM <table> <where-suffix>`
from the original-case normalized text. -/
def previewTranslateChars (sqlChars : List Char) : PreviewResult :=
  let norm := normalizeChars sqlChars
  let upper := upperChars norm
  let updateIndex := indexOfSub "UPDATE ".data upper
  let setIndex := indexOfSub " SET ".data upper
  let whereIndex := indexOfSub " WHERE ".data upper
  match updateIndex, setIndex with
  | some u, some s =>
    if u < s then
      if u + 7 ≤ s then
        let tableName := trimChars (sliceList (u + 7) s norm)
        match whereIndex with
        | some w =>
          if s < w then
            .translated ⟨"SELECT * FROM ".data ++ tableName ++ ' ' :: norm.drop w⟩
          else
            .translated ⟨"SELECT * FROM ".data ++ tableName⟩
        | none => .translated ⟨"SELECT * FROM ".data ++ tableName⟩
      else .sliceFault
    else .parseError
  | _, _ => .parseError

/-- Preview translation on `String`. -/
def previewTranslate (sql : String) : PreviewResult :=
  previewTranslateChars sql.data

/-! ## The transaction runner (main.go `runQueriesInTransaction`) -/

/-- The error outcomes of `runQueriesInTransaction`.  Each constructor keeps
the data the corresponding `fmt.Errorf` in main.go interpolates: the
original (untrimmed) id for an unknown query, the first missing allow-listed
key, and for a row-limit violation both the actual and the allowed counts. -/
inductive ExecError where
  | unknownQuery (id : String)
  | missingParameter (key : String)
  | previewParse (id : String)
  | previewFailed (id : String)
  | executionError (id : String)
  | rowLimit (id : String) (n limit : Int)
  | sliceOutOfRange (id : String)
  deriving Repr, DecidableEq

/-- Observable interaction with the backing store during one statement:
the SQL text sent, the bound positional arguments, and the reported result
(result rows for queries, affected-row count for exec). -/
inductive Event where
  | executedSelect (qid sql : String) (args : List String) (rows : List (List String))
  | previewed (qid sql : String) (args : List String) (rows : List (List String))
  | executed (qid sql : String) (args : List String) (n : Int)
  deriving Repr, DecidableEq

/-- The backing store, abstracted over a transaction-local working state
`σ`: `execS` models `tx.ExecContext` (returns the new working state and the
engine-reported affected-row count), `queryS` models `tx.QueryContext` with
the rows already materialized.  `none` models a statement rejected by the
store. -/
structure Store (σ : Type) where
  execS : σ → String → List String → Option (σ × Int)
  queryS : σ → String → List String → Option (σ × List (List String))

/-- The parameter binder (main.go lines 68–75): iterate over
`allowed_params` in declaration order, look each name up in the supplied
map, fail with the first absent name, otherwise append the value. -/
def bindParams : List String → Params → Except String (List String)
  | [], _ => .ok []
  | key :: rest, params =>
    match lookupAssoc params key with
    | none => .error key
    | some v =>
      match bindParams rest params with
      | .error k => .error k
      | .ok vs => .ok (v :: vs)

/-- One iteration of the statement loop of `runQueriesInTransaction`:
catalog lookup on the trimmed id, parameter binding, then the three-way
branch of main.go (leading-`SELECT` check first, then preview mode, then
approved execution with the row-limit guard). -/
def stepStmt {σ : Type} (st : Store σ) (cat : Catalog) (params : Params)
    (approve : Bool) (id : String) (s : σ) : Except ExecError (σ × Event) :=
  match lookupAssoc cat (trimS id) with
  | none => .error (.unknownQuery id)
  | some qdef =>
    match bindParams qdef.allowedParams params with
    | .error key => .error (.missingParameter key)
    | .ok args =>
      if isSelectSQL qdef.sql then
        match st.queryS s qdef.sql args with
        | none => .error (.executionError id)
        | some (s', rows) => .ok (s', .executedSelect qdef.id qdef.sql args rows)
      else if !approve then
        match previewTranslate qdef.sql with
        | .parseError => .error (.previewParse id)
        | .sliceFault => .error (.sliceOutOfRange id)
        | .translated psql =>
          match st.queryS s psql args with
          | none => .error (.previewFailed id)
          | some (s', rows) => .ok (s', .previewed qdef.id psql args rows)
      else
        match st.execS s qdef.sql args with
        | none => .error (.executionError id)
        | some (s', n) =>
          if qdef.maxRowsAffected > 0 && n > qdef.maxRowsAffected then
            .error (.rowLimit id n qdef.maxRowsAffected)
          else .ok (s', .executed qdef.id qdef.sql args n)

/-- The statement loop: working state threads through successful steps; the
first failing step stops the loop with its error, keeping the events of the
statements already processed. -/
def runLoop {σ : Type} (st : Store σ) (cat : Catalog) (params : Params)
    (approve : Bool) : List String → σ → σ × List Event × Option ExecError
  | [], s => (s, [], none)
  | id :: rest, s =>
    match stepStmt st cat params approve id s with
    | .error e => (s, [], some e)
    | .ok (s', ev) =>
      match runLoop st cat params approve rest s' with
      | (sF, evs, err) => (sF, ev :: evs, err)

/-- Aggregate outcome of `runQueriesInTransaction`: the persisted store
state after commit or rollback, the store interactions that happened inside
the transaction, the returned error if any, and whether the transaction was
committed. -/
structure RunResult (σ : Type) where
  persisted : σ
  events : List Event
  error : Option ExecError
  committed : Bool
  deriving Repr, DecidableEq

/-- `runQueriesInTransaction` of main.go: run the statement loop inside a
transaction over persisted state `s0`; on any error the deferred rollback
discards the working state; otherwise commit when `approve` is set and roll
back (dry run) when it is not. -/
def runQueriesInTransaction {σ : Type} (st : Store σ) (cat : Catalog) (s0 : σ)
    (ids : List String) (params : Params) (approve : Bool) : RunResult σ :=
  match runLoop st cat params approve ids s0 with
  | (_, evs, some e) => ⟨s0, evs, some e, false⟩
  | (sEnd, evs, none) =>
    if approve then ⟨sEnd, evs, none, true⟩ else ⟨s0, evs, none, false⟩

/-! ## Concrete fixtures for evaluating the theorems -/

/-- A small concrete store over `Int` working states: every exec bumps the
state and reports one affected row per bound argument; the magic texts
`"BOOM"` / `"QBOOM"` are rejected. -/
def demoStore : Store Int where
  execS s sql args := if sql = "BOOM" then none else some (s + 1, Int.ofNat args.length)
  queryS s sql args := if sql = "QBOOM" then none else some (s, [sql :: args])

/-- A read-only definition. -/
def qSel : QueryDefinition :=
  ⟨"sel", "list rows", "SELECT * FROM t", false, 0, []⟩

/-- A mutating definition whose two bound arguments make `demoStore` report
2 affected rows, above its limit of 1. -/
def qUpd : QueryDefinition :=
  ⟨"upd", "update status", "UPDATE users SET status=$1 WHERE user_id=$2", true, 1,
    ["status", "user_id"]⟩

/-- A mutating definition whose single bound argument makes `demoStore`
report exactly its limit of 1 affected row. -/
def qUpd1 : QueryDefinition :=
  ⟨"upd1", "update one", "UPDATE users SET status=$1", true, 1, ["status"]⟩

/-- A mutating definition whose shape the preview translator does not
recognize (no `UPDATE`/`SET` pair). -/
def qDel : QueryDefinition :=
  ⟨"del", "delete row", "DELETE FROM users WHERE user_id=$1", true, 0, ["user_id"]⟩

/-- The demo catalog. -/
def demoCat : Catalog :=
  [("sel", qSel), ("upd", qUpd), ("upd1", qUpd1), ("del", qDel)]

/-- The demo parameter map. -/
def demoParams : Params :=
  [("status", "active"), ("user_id", "123")]

/-- Rewrite the `requires_approval` flag of every catalog entry by an
arbitrary reassignment, leaving every other field unchanged. -/
def setApproval (f : String → QueryDefinition → Bool) (cat : Catalog) : Catalog :=
  cat.map fun p => (p.1, { p.2 with requiresApproval := f p.1 p.2 })

/-- Surround an id with `a` leading and `b` trailing spaces, as splitting a
comma-separated list such as `"a, b"` produces. -/
def padSpaces (a b : Nat) (id : String) : String :=
  ⟨List.replicate a ' ' ++ id.data ++ List.replicate b ' '⟩

/-! ## Helper lemmas about the statement loop -/

/-- Splitting the statement loop at an arbitrary point of the id list:
a failure in the prefix decides the run; otherwise the suffix continues
from the prefix's final working state. -/
theorem runLoop_append {σ : Type} (st : Store σ) (cat : Catalog)
    (params : Params) (approve : Bool) (pre rest : List String) (s : σ) :
    runLoop st cat params approve (pre ++ rest) s =
      match runLoop st cat params approve pre s with
      | (s1, evs1, some e) => (s1, evs1, some e)
      | (s1, evs1, none) =>
        match runLoop st cat params approve rest s1 with
        | (s2, evs2, err) => (s2, evs1 ++ evs2, err) := by
  induction pre generalizing s with
  | nil =>
    rcases hr : runLoop st cat params approve rest s with ⟨s2, evs2, err⟩
    simp [runLoop, hr]
  | cons id pre ih =>
    simp only [List.cons_append, runLoop, List.append_eq]
    cases hstep : stepStmt st cat params approve id s with
    | error e => simp
    | ok p =>
      rcases p with ⟨s', ev⟩
      dsimp only
      rw [ih s']
      rcases hpre : runLoop st cat params approve pre s' with ⟨s1, evs1, err1⟩
      cases err1 with
      | some e => simp
      | none =>
        rcases hrest : runLoop st cat params approve rest s1 with ⟨s2, evs2, err⟩
        simp

/-! ## The claims -/

/-- C1: for every request invoked with `approve = false`, the persisted
state of the backing store after `runQueriesInTransaction` equals its state
before the call, and the transaction is never committed — no mutation
survives a dry run, whatever the statements did inside the transaction. -/
theorem dry_run_preserves_state {σ : Type} (st : Store σ) (cat : Catalog)
    (s0 : σ) (ids : List String) (params : Params) :
    (runQueriesInTransaction st cat s0 ids params false).persisted = s0 ∧
    (runQueriesInTransaction st cat s0 ids params false).committed = false := by
  unfold runQueriesInTransaction
  rcases runLoop st cat params false ids s0 with ⟨sE, evs, err⟩
  cases err <;> simp

/-- C2: `runQueriesInTransaction` commits iff `approve` is true and no
statement failed; any returned error means the whole transaction was rolled
back (persisted state unchanged, nothing committed); and the first failing
statement decides the run — the statements after it are never processed, so
the result with any suffix after the failing id equals the result with that
suffix dropped. -/
theorem commit_iff_all_succeed {σ : Type} (st : Store σ) (cat : Catalog)
    (s0 : σ) (params : Params) (approve : Bool) :
    (∀ ids : List String,
      ((runQueriesInTransaction st cat s0 ids params approve).committed = true ↔
        approve = true ∧
          (runQueriesInTransaction st cat s0 ids params approve).error = none) ∧
      (∀ e, (runQueriesInTransaction st cat s0 ids params approve).error = some e →
        (runQueriesInTransaction st cat s0 ids params approve).persisted = s0 ∧
        (runQueriesInTransaction st cat s0 ids params approve).committed = false)) ∧
    (∀ (pre : List String) (id : String) (rest : List String) (s1 : σ)
        (evs1 : List Event) (e : ExecError),
      runLoop st cat params approve pre s0 = (s1, evs1, none) →
      stepStmt st cat params approve id s1 = .error e →
      runQueriesInTransaction st cat s0 (pre ++ id :: rest) params approve =
        ⟨s0, evs1, some e, false⟩ ∧
      runQueriesInTransaction st cat s0 (pre ++ id :: rest) params approve =
        runQueriesInTransaction st cat s0 (pre ++ [id]) params approve) := by
  constructor
  · intro ids
    unfold runQueriesInTransaction
    rcases runLoop st cat params approve ids s0 with ⟨sE, evs, err⟩
    cases err with
    | none =>
      cases approve <;> simp
    | some e => simp
  · intro pre id rest s1 evs1 e hpre hstep
    have hfail : ∀ tail : List String,
        runLoop st cat params approve (pre ++ id :: tail) s0 = (s1, evs1, some e) := by
      intro tail
      rw [runLoop_append, hpre]
      simp only [runLoop, hstep]
      simp
    constructor
    · unfold runQueriesInTransaction
      rw [hfail rest]
    · unfold runQueriesInTransaction
      rw [hfail rest, hfail []]

/-- Witness for C2 at concrete inputs: in the demo catalog, running
`["upd1", "nope", "sel"]` (the second id is unknown) with approval stops at
`"nope"`, returns the unknown-query error, and leaves the persisted state
at its initial value with nothing committed — identically with or without
the trailing `"sel"`. -/
theorem commit_iff_all_succeed_witness :
    runQueriesInTransaction demoStore demoCat 0 ["upd1", "nope", "sel"] demoParams true =
      ⟨0, [.executed "upd1" "UPDATE users SET status=$1" ["active"] 1], some (.unknownQuery "nope"), false⟩ ∧
    runQueriesInTransaction demoStore demoCat 0 ["upd1", "nope", "sel"] demoParams true =
      runQueriesInTransaction demoStore demoCat 0 ["upd1", "nope"] demoParams true := by
  have h := (commit_iff_all_succeed demoStore demoCat 0 demoParams true).2
    ["upd1"] "nope" ["sel"] 1
    [.executed "upd1" "UPDATE users SET status=$1" ["active"] 1]
    (.unknownQuery "nope") (by rfl) (by rfl)
  exact h

/-- C3: for an approved mutating statement, the engine-reported affected-row
count `n` is checked against `max_rows_affected` after execution: with a
positive limit, `n` above it fails with a row-limit error carrying both the
actual and the allowed counts and the transaction rolls back; `n` exactly
equal to the limit succeeds; a limit of 0 imposes no bound. -/
theorem row_limit_guard {σ : Type} (st : Store σ) (cat : Catalog)
    (params : Params) (id : String) (qdef : QueryDefinition) (s s' : σ)
    (args : List String) (n : Int)
    (hq : lookupAssoc cat (trimS id) = some qdef)
    (hb : bindParams qdef.allowedParams params = .ok args)
    (hsel : isSelectSQL qdef.sql = false)
    (hex : st.execS s qdef.sql args = some (s', n)) :
    (qdef.maxRowsAffected > 0 → n > qdef.maxRowsAffected →
      stepStmt st cat params true id s = .error (.rowLimit id n qdef.maxRowsAffected) ∧
      (runQueriesInTransaction st cat s [id] params true).persisted = s ∧
      (runQueriesInTransaction st cat s [id] params true).committed = false) ∧
    (n = qdef.maxRowsAffected →
      stepStmt st cat params true id s = .ok (s', .executed qdef.id qdef.sql args n)) ∧
    (qdef.maxRowsAffected = 0 →
      stepStmt st cat params true id s = .ok (s', .executed qdef.id qdef.sql args n)) := by
  refine ⟨?_, ?_, ?_⟩
  · intro h1 h2
    have hs : stepStmt st cat params true id s =
        .error (.rowLimit id n qdef.maxRowsAffected) := by
      simp [stepStmt, hq, hb, hsel, hex, h1, h2]
    exact ⟨hs, by simp [runQueriesInTransaction, runLoop, hs], by
      simp [runQueriesInTransaction, runLoop, hs]⟩
  · intro h
    simp [stepStmt, hq, hb, hsel, hex, h]
  · intro h
    simp [stepStmt, hq, hb, hsel, hex, h]

/-- Witness for C3 at concrete inputs in the demo catalog: `"upd"` binds two
arguments so `demoStore` reports 2 affected rows over its limit of 1 and the
step fails with the row-limit error; `"upd1"` reports exactly its limit of 1
and succeeds; `"del"` has limit 0 and succeeds with 1 affected row. -/
theorem row_limit_guard_witness :
    stepStmt demoStore demoCat demoParams true "upd" 0 =
      .error (.rowLimit "upd" 2 1) ∧
    stepStmt demoStore demoCat demoParams true "upd1" 0 =
      .ok (1, .executed "upd1" "UPDATE users SET status=$1" ["active"] 1) ∧
    stepStmt demoStore demoCat demoParams true "del" 0 =
      .ok (1, .executed "del" "DELETE FROM users WHERE user_id=$1" ["123"] 1) := by
  refine ⟨?_, ?_, ?_⟩
  · exact ((row_limit_guard demoStore demoCat demoParams "upd" qUpd 0 1
      ["active", "123"] 2 rfl rfl rfl rfl).1 (by decide) (by decide)).1
  · exact (row_limit_guard demoStore demoCat demoParams "upd1" qUpd1 0 1
      ["active"] 1 rfl rfl rfl rfl).2.1 rfl
  · exact (row_limit_guard demoStore demoCat demoParams "del" qDel 0 1
      ["123"] 1 rfl rfl rfl rfl).2.2 rfl

/-- C4: a mutating statement processed in preview mode whose shape the
translator does not recognize fails with the preview-translation error and
the transaction rolls back; the original statement is never sent to the
store — the result is this error for every possible store, and the run
records no store interaction at all. -/
theorem preview_unrecognized_shape_fails {σ : Type} (st : Store σ)
    (cat : Catalog) (params : Params) (id : String) (qdef : QueryDefinition)
    (s : σ) (args : List String)
    (hq : lookupAssoc cat (trimS id) = some qdef)
    (hb : bindParams qdef.allowedParams params = .ok args)
    (hsel : isSelectSQL qdef.sql = false)
    (hprev : previewTranslate qdef.sql = .parseError) :
    stepStmt st cat params false id s = .error (.previewParse id) ∧
    runQueriesInTransaction st cat s [id] params false =
      ⟨s, [], some (.previewParse id), false⟩ := by
  have hs : stepStmt st cat params false id s = .error (.previewParse id) := by
    simp [stepStmt, hq, hb, hsel, hprev]
  exact ⟨hs, by simp [runQueriesInTransaction, runLoop, hs]⟩

/-- Witness for C4: the `DELETE` statement of `"del"` is not an
`UPDATE`/`SET` shape, so its preview fails with the translation error, the
store is never consulted (no events) and nothing is committed. -/
theorem preview_unrecognized_shape_fails_witness :
    stepStmt demoStore demoCat demoParams false "del" 0 =
      .error (.previewParse "del") ∧
    runQueriesInTransaction demoStore demoCat 0 ["del"] demoParams false =
      ⟨0, [], some (.previewParse "del"), false⟩ :=
  preview_unrecognized_shape_fails demoStore demoCat demoParams "del" qDel 0
    ["123"] rfl rfl rfl rfl

/-- C5: the parameter binder walks `allowed_params` in declaration order:
when every allow-listed name is present it returns exactly the values in
that order; otherwise it fails naming the first absent allow-listed name,
and a binder failure surfaces as the missing-parameter error of the step,
for every store — the statement is never executed. -/
theorem bind_params_order_and_first_missing (allowed : List String)
    (params : Params) :
    ((∀ k ∈ allowed, (lookupAssoc params k).isSome) →
      bindParams allowed params =
        .ok (allowed.map fun k => (lookupAssoc params k).getD "")) ∧
    (∀ (pre : List String) (k : String) (post : List String),
      allowed = pre ++ k :: post →
      (∀ k' ∈ pre, (lookupAssoc params k').isSome) →
      lookupAssoc params k = none →
      bindParams allowed params = .error k) ∧
    (∀ {σ : Type} (st : Store σ) (cat : Catalog) (approve : Bool)
        (id : String) (qdef : QueryDefinition) (s : σ) (k : String),
      lookupAssoc cat (trimS id) = some qdef →
      qdef.allowedParams = allowed →
      bindParams allowed params = .error k →
      stepStmt st cat params approve id s = .error (.missingParameter k)) := by
  refine ⟨?_, ?_, ?_⟩
  · induction allowed with
    | nil => intro _; rfl
    | cons key rest ih =>
      intro hall
      have hk := hall key (by simp)
      rcases hv : lookupAssoc params key with _ | v
      · rw [hv] at hk; simp at hk
      · have hrest := ih fun k hk => hall k (by simp [hk])
        simp [bindParams, hv, hrest]
  · intro pre k post heq hpre hk
    subst heq
    revert hpre
    induction pre with
    | nil => intro _; simp [bindParams, hk]
    | cons p pre' ih =>
      intro hpre
      have hp := hpre p (by simp)
      rcases hv : lookupAssoc params p with _ | v
      · rw [hv] at hp; simp at hp
      · have htail := ih fun k' hk' => hpre k' (by simp [hk'])
        simp [bindParams, hv, htail]
  · intro σ st cat approve id qdef s k hq hap hbind
    simp [stepStmt, hq, hap, hbind]

/-- Witness for C5: with both parameters supplied, `"upd"`'s allow-list
binds `["active", "123"]` in declaration order; with `user_id` missing the
binder and the step fail naming `user_id`. -/
theorem bind_params_order_and_first_missing_witness :
    bindParams ["status", "user_id"] demoParams = .ok ["active", "123"] ∧
    bindParams ["status", "user_id"] [("status", "x")] = .error "user_id" ∧
    stepStmt demoStore demoCat [("status", "x")] true "upd" 0 =
      .error (.missingParameter "user_id") := by
  refine ⟨?_, ?_, ?_⟩
  · have h := (bind_params_order_and_first_missing ["status", "user_id"]
      demoParams).1 (by decide)
    exact h.trans (by rfl)
  · exact (bind_params_order_and_first_missing ["status", "user_id"]
      [("status", "x")]).2.1 ["status"] "user_id" [] rfl (by decide) (by decide)
  · exact (bind_params_order_and_first_missing ["status", "user_id"]
      [("status", "x")]).2.2 demoStore demoCat true "upd" qUpd 0 "user_id"
      rfl rfl ((bind_params_order_and_first_missing ["status", "user_id"]
        [("status", "x")]).2.1 ["status"] "user_id" [] rfl (by decide) (by decide))

/-- The binder only consults the supplied map at allow-listed names, so two
maps that agree on every name of the allow-list bind identically. -/
theorem bindParams_congr (allowed : List String) (params params' : Params)
    (h : ∀ k ∈ allowed, lookupAssoc params' k = lookupAssoc params k) :
    bindParams allowed params' = bindParams allowed params := by
  induction allowed with
  | nil => rfl
  | cons key rest ih =>
    have hk := h key (by simp)
    have hrest := ih fun k hk => h k (by simp [hk])
    simp [bindParams, hk, hrest]

/-- One statement step is unchanged by swapping the parameter map for one
that agrees on the allow-list of the query the id resolves to. -/
theorem stepStmt_params_congr {σ : Type} (st : Store σ) (cat : Catalog)
    (approve : Bool) (id : String) (s : σ) (params params' : Params)
    (h : ∀ qdef, lookupAssoc cat (trimS id) = some qdef →
      ∀ k ∈ qdef.allowedParams, lookupAssoc params' k = lookupAssoc params k) :
    stepStmt st cat params' approve id s = stepStmt st cat params approve id s := by
  unfold stepStmt
  cases hq : lookupAssoc cat (trimS id) with
  | none => rfl
  | some qdef =>
    dsimp only
    rw [bindParams_congr qdef.allowedParams params params' (h qdef hq)]

/-- C6: adding to the parameter map an extra binding whose key is absent
from the map and from the allow-list of every query the request's ids
resolve to changes nothing observable: the whole run result — bound
arguments, statements sent to the store, events, error, persisted state and
commit decision — is identical to the run without that binding. -/
theorem extra_param_noninterference {σ : Type} (st : Store σ) (cat : Catalog)
    (s0 : σ) (ids : List String) (params : Params) (approve : Bool)
    (k v : String)
    (hfresh : ∀ id ∈ ids, ∀ qdef, lookupAssoc cat (trimS id) = some qdef →
      k ∉ qdef.allowedParams)
    (_habsent : lookupAssoc params k = none) :
    runQueriesInTransaction st cat s0 ids ((k, v) :: params) approve =
      runQueriesInTransaction st cat s0 ids params approve := by
  have hloop : ∀ (l : List String), (∀ id ∈ l, ∀ qdef,
      lookupAssoc cat (trimS id) = some qdef → k ∉ qdef.allowedParams) →
      ∀ s : σ, runLoop st cat ((k, v) :: params) approve l s =
        runLoop st cat params approve l s := by
    intro l
    induction l with
    | nil => intro _ s; rfl
    | cons id rest ih =>
      intro hl s
      have hstep : stepStmt st cat ((k, v) :: params) approve id s =
          stepStmt st cat params approve id s := by
        apply stepStmt_params_congr
        intro qdef hq key hkey
        have hne : k ≠ key := fun he =>
          hl id (by simp) qdef hq (he ▸ hkey)
        simp [lookupAssoc, hne]
      simp only [runLoop, hstep]
      cases stepStmt st cat params approve id s with
      | error e => rfl
      | ok p =>
        rcases p with ⟨s', ev⟩
        dsimp only
        rw [ih (fun i hi => hl i (by simp [hi])) s']
  unfold runQueriesInTransaction
  rw [hloop ids hfresh s0]

/-- Witness for C6: adding the unused binding `("extra", "1")` to the demo
parameter map leaves the run of `["upd1", "sel"]` unchanged. -/
theorem extra_param_noninterference_witness :
    runQueriesInTransaction demoStore demoCat 0 ["upd1", "sel"]
      (("extra", "1") :: demoParams) true =
    runQueriesInTransaction demoStore demoCat 0 ["upd1", "sel"]
      demoParams true :=
  extra_param_noninterference demoStore demoCat 0 ["upd1", "sel"] demoParams
    true "extra" "1"
    (by
      intro id hid qdef hq
      rcases (by simpa using hid : id = "upd1" ∨ id = "sel") with rfl | rfl
      · have h2 : (some qUpd1 : Option QueryDefinition) = some qdef :=
          Eq.trans (by rfl) hq
        cases h2
        decide
      · have h2 : (some qSel : Option QueryDefinition) = some qdef :=
          Eq.trans (by rfl) hq
        cases h2
        decide)
    (by decide)

/-- C7: when the uppercased whitespace-normalized statement contains
`"UPDATE "` (first occurrence at `u`) followed — after the end of the
keyword — by `" SET "` (first occurrence at `s`), the translator produces
exactly `SELECT * FROM <table>`, `<table>` being the trimmed text of the
normalized statement between the two keywords; and when the first
`" WHERE "` occurrence lies after the `SET` keyword, the normalized text
from that occurrence on is appended verbatim after a space, preserving the
condition clause. -/
theorem preview_update_translation (sql : String) (u s : Nat)
    (hu : indexOfSub "UPDATE ".data (upperChars (normalizeChars sql.data)) = some u)
    (hs : indexOfSub " SET ".data (upperChars (normalizeChars sql.data)) = some s)
    (hus : u + 7 ≤ s) :
    previewTranslate sql = .translated ⟨"SELECT * FROM ".data ++
      trimChars (sliceList (u + 7) s (normalizeChars sql.data)) ++
      (match indexOfSub " WHERE ".data (upperChars (normalizeChars sql.data)) with
       | some w => if s < w then ' ' :: (normalizeChars sql.data).drop w else []
       | none => [])⟩ := by
  have hlt : u < s := by omega
  simp only [previewTranslate, previewTranslateChars]
  rw [hu, hs]
  simp only [hlt, hus, if_true, if_pos]
  cases hw : indexOfSub " WHERE ".data (upperChars (normalizeChars sql.data)) with
  | none => simp
  | some w =>
    by_cases hsw : s < w
    · simp [hsw]
    · simp [hsw]

/-- Witness for C7: the design document's example statement translates to
the `SELECT` over the same table with the `WHERE` clause preserved (the
separating space plus the verbatim clause, which itself starts with a
space). -/
theorem preview_update_translation_witness :
    previewTranslate "UPDATE users SET status=$1 WHERE user_id=$2" =
      .translated "SELECT * FROM users  WHERE user_id=$2" := by
  have h := preview_update_translation
    "UPDATE users SET status=$1 WHERE user_id=$2" 0 12 (by rfl) (by rfl)
    (by decide)
  exact h.trans (by rfl)

/-- C8: a statement whose SQL, after trimming leading whitespace and
uppercasing, begins with `SELECT` bypasses preview translation entirely: it
is sent to the store as-is with its bound arguments and yields its natural
result rows, identically in approved and preview mode. -/
theorem select_bypasses_preview {σ : Type} (st : Store σ) (cat : Catalog)
    (params : Params) (id : String) (qdef : QueryDefinition) (s : σ)
    (args : List String)
    (hq : lookupAssoc cat (trimS id) = some qdef)
    (hb : bindParams qdef.allowedParams params = .ok args)
    (hsel : isSelectSQL qdef.sql = true) :
    stepStmt st cat params true id s = stepStmt st cat params false id s ∧
    stepStmt st cat params true id s =
      (match st.queryS s qdef.sql args with
       | none => .error (.executionError id)
       | some (s', rows) =>
         .ok (s', .executedSelect qdef.id qdef.sql args rows)) := by
  constructor <;> simp [stepStmt, hq, hb, hsel]

/-- Witness for C8: the read-only `"sel"` statement executes identically
with and without approval and returns its result rows directly. -/
theorem select_bypasses_preview_witness :
    stepStmt demoStore demoCat demoParams true "sel" 0 =
      stepStmt demoStore demoCat demoParams false "sel" 0 ∧
    stepStmt demoStore demoCat demoParams true "sel" 0 =
      .ok (0, .executedSelect "sel" "SELECT * FROM t" [] [["SELECT * FROM t"]]) := by
  have h := select_bypasses_preview demoStore demoCat demoParams "sel" qSel 0 []
    rfl rfl rfl
  exact ⟨h.1, h.2.trans (by rfl)⟩

/-- Catalog lookup after reassigning every `requires_approval` flag finds
the same definition with only that flag rewritten. -/
theorem lookupAssoc_setApproval (f : String → QueryDefinition → Bool)
    (cat : Catalog) (key : String) :
    lookupAssoc (setApproval f cat) key =
      (lookupAssoc cat key).map
        fun q => { q with requiresApproval := f key q } := by
  induction cat with
  | nil => rfl
  | cons p rest ih =>
    rcases p with ⟨k, q⟩
    by_cases h : k = key
    · subst h
      simp [setApproval, lookupAssoc]
    · simp only [setApproval, List.map_cons, lookupAssoc, h, if_false] at ih ⊢
      exact ih

/-- One statement step never reads `requires_approval`: reassigning the
flag throughout the catalog leaves the step unchanged. -/
theorem stepStmt_setApproval {σ : Type} (st : Store σ)
    (f : String → QueryDefinition → Bool) (cat : Catalog) (params : Params)
    (approve : Bool) (id : String) (s : σ) :
    stepStmt st (setApproval f cat) params approve id s =
      stepStmt st cat params approve id s := by
  unfold stepStmt
  rw [lookupAssoc_setApproval]
  cases lookupAssoc cat (trimS id) with
  | none => rfl
  | some q => rfl

/-- C9: the `requires_approval` field has no effect on behaviour — for any
reassignment of the flag across all catalog entries, every run produces
identical bound arguments, identical statements sent to the store,
identical events and an identical outcome; no control flow of
`runQueriesInTransaction` reads the field. -/
theorem requires_approval_has_no_effect {σ : Type} (st : Store σ)
    (cat : Catalog) (s0 : σ) (ids : List String) (params : Params)
    (approve : Bool) (f : String → QueryDefinition → Bool) :
    runQueriesInTransaction st (setApproval f cat) s0 ids params approve =
      runQueriesInTransaction st cat s0 ids params approve := by
  have hloop : ∀ l (s : σ), runLoop st (setApproval f cat) params approve l s =
      runLoop st cat params approve l s := by
    intro l
    induction l with
    | nil => intro s; rfl
    | cons id rest ih =>
      intro s
      simp only [runLoop, stepStmt_setApproval]
      cases stepStmt st cat params approve id s with
      | error e => rfl
      | ok p =>
        rcases p with ⟨s', ev⟩
        dsimp only
        rw [ih s']
  unfold runQueriesInTransaction
  rw [hloop ids s0]

/-- Leading spaces are removed by the left trim. -/
theorem trimLeftChars_replicate_append (n : Nat) (cs : List Char) :
    trimLeftChars (List.replicate n ' ' ++ cs) = trimLeftChars cs := by
  induction n with
  | zero => rfl
  | succ m ih =>
    have hsp : (' ' : Char).isWhitespace = true := rfl
    simp only [trimLeftChars, List.replicate_succ, List.cons_append,
      List.dropWhile_cons, hsp, if_true]
    exact ih

/-- Trailing spaces are removed by the right trim. -/
theorem trimRightChars_append_replicate (n : Nat) (cs : List Char) :
    trimRightChars (cs ++ List.replicate n ' ') = trimRightChars cs := by
  unfold trimRightChars
  rw [List.reverse_append, List.reverse_replicate,
    trimLeftChars_replicate_append]

/-- Trailing spaces are removed by the full trim. -/
theorem trimChars_append_replicate (n : Nat) (cs : List Char) :
    trimChars (cs ++ List.replicate n ' ') = trimChars cs := by
  induction cs with
  | nil =>
    simp only [List.nil_append, trimChars]
    have h := trimLeftChars_replicate_append n []
    rw [List.append_nil] at h
    rw [h]
  | cons c cs' ih =>
    by_cases h : c.isWhitespace
    · simp only [trimChars, trimLeftChars, List.cons_append,
        List.dropWhile_cons, h, if_true] at ih ⊢
      exact ih
    · simp only [trimChars, trimLeftChars, List.cons_append,
        List.dropWhile_cons, h, if_false, Bool.false_eq_true]
      have := trimRightChars_append_replicate n (c :: cs')
      simpa [List.cons_append] using this

/-- Padding an id with spaces on both sides does not change its trim. -/
theorem trimChars_pad (a b : Nat) (cs : List Char) :
    trimChars (List.replicate a ' ' ++ cs ++ List.replicate b ' ') =
      trimChars cs := by
  rw [List.append_assoc]
  have h1 : trimChars (List.replicate a ' ' ++ (cs ++ List.replicate b ' ')) =
      trimChars (cs ++ List.replicate b ' ') := by
    unfold trimChars
    rw [trimLeftChars_replicate_append]
  rw [h1, trimChars_append_replicate]

/-- When the trimmed id is in the catalog, the step can fail in many ways
but never with the unknown-query error. -/
theorem stepStmt_not_unknown {σ : Type} (st : Store σ) (cat : Catalog)
    (params : Params) (approve : Bool) (id : String) (s : σ)
    (q : QueryDefinition) (hl : lookupAssoc cat (trimS id) = some q) :
    ∀ e, stepStmt st cat params approve id s ≠ .error (.unknownQuery e) := by
  intro e
  simp only [stepStmt, hl]
  cases hb : bindParams q.allowedParams params with
  | error k => simp
  | ok args =>
    dsimp only
    split
    · cases hq2 : st.queryS s q.sql args with
      | none => simp
      | some p => rcases p with ⟨s', rows⟩; simp
    · split
      · cases hp : previewTranslate q.sql with
        | translated psql =>
          dsimp only
          cases hq3 : st.queryS s psql args with
          | none => simp
          | some p => rcases p with ⟨s', rows⟩; simp
        | parseError => simp
        | sliceFault => simp
      · cases he : st.execS s q.sql args with
        | none => simp
        | some p =>
          rcases p with ⟨s', n⟩
          dsimp only
          split <;> simp

/-- C10: an id supplied with surrounding spaces (as splitting a
comma-separated list produces) is trimmed before the catalog lookup: its
trim, its resolution and hence its whole treatment coincide with the bare
id's, and the unknown-query error occurs exactly when the trimmed form is
absent from the catalog. -/
theorem query_id_trimmed_before_lookup {σ : Type} (st : Store σ)
    (cat : Catalog) (params : Params) (approve : Bool) (s : σ)
    (a b : Nat) (id : String) :
    trimS (padSpaces a b id) = trimS id ∧
    lookupAssoc cat (trimS (padSpaces a b id)) = lookupAssoc cat (trimS id) ∧
    (stepStmt st cat params approve id s = .error (.unknownQuery id) ↔
      lookupAssoc cat (trimS id) = none) := by
  have htrim : trimS (padSpaces a b id) = trimS id :=
    congrArg String.mk (trimChars_pad a b id.data)
  refine ⟨htrim, by rw [htrim], ?_⟩
  constructor
  · intro h
    cases hl : lookupAssoc cat (trimS id) with
    | none => rfl
    | some q =>
      exact absurd h (stepStmt_not_unknown st cat params approve id s q hl id)
  · intro h
    simp [stepStmt, h]

end DbExec
